import Mathlib

/-!
Verification of the key-value server's wire codec, expiring store,
replication handshake and dispatcher, shallowly embedded from the Rust
sources (src/parser.rs, src/command.rs, src/redis/store.rs,
src/redis/master.rs, src/redis/slave.rs, src/server.rs).

Buffers are modelled as `List Char` (the Rust code works on `&str`,
a sequence of characters); machine integers (`u64`, `usize`) are `Nat`
(no arithmetic in the sources can overflow 64 bits on the inputs the
claims quantify over, and no wrap-around behaviour is relied upon).
-/

deriving instance DecidableEq for Except

/-- Characters considered one by one; the NUL character stripped by the
sanitizing pass in `RedisCommandParser::parse`. -/
def nulChar : Char := '\x00'

/-- Embeds `buffer_str.chars().filter(|&c| c != '\0')` from
`RedisCommandParser::parse` (src/parser.rs). -/
def sanitize (s : List Char) : List Char := s.filter (fun c => c ≠ nulChar)

/-- Embeds `str::split("\r\n")`: cuts the character sequence at every
CRLF pair, scanning left to right; `acc` holds the (reversed) characters
of the line being accumulated. -/
def splitCRLF (acc : List Char) : List Char → List (List Char)
  | [] => [acc.reverse]
  | c :: rest =>
    match rest with
    | d :: rest2 =>
      if c = '\r' ∧ d = '\n' then acc.reverse :: splitCRLF [] rest2
      else splitCRLF (c :: acc) (d :: rest2)
    | [] => splitCRLF (c :: acc) []

/-- Holds when the character sequence contains no CRLF pair, so that
`splitCRLF` keeps it in one piece. -/
def noCRLF : List Char → Bool
  | [] => true
  | _ :: [] => true
  | c :: d :: rest => !(c = '\r' && d = '\n') && noCRLF (d :: rest)

/-- Embeds `.split("\r\n").filter(|line| !line.is_empty())` applied to the
NUL-sanitized buffer: the line view of a request buffer that every parsing
function in src/parser.rs consumes. -/
def linesOf (s : List Char) : List (List Char) :=
  (splitCRLF [] (sanitize s)).filter (fun l => !l.isEmpty)

/-- Joins lines with CRLF, terminating each line (the serialised frames in
the sources end every line, including the last, with CRLF). -/
def joinCRLF : List (List Char) → List Char
  | [] => []
  | l :: ls => l ++ '\r' :: '\n' :: joinCRLF ls

/-- Decimal digit character of a value below ten. -/
def digitCharOf (n : Nat) : Char := Char.ofNat (48 + n % 10)

/-- Fuel-driven rendering of a natural number's decimal digits, most
significant first, in front of `acc`. -/
def natCharsGo : Nat → Nat → List Char → List Char
  | 0, _, acc => acc
  | fuel + 1, n, acc =>
    if n < 10 then digitCharOf n :: acc
    else natCharsGo fuel (n / 10) (digitCharOf n :: acc)

/-- Decimal rendering of a natural number (the model of Rust's integer
`Display`/`to_string`, used when the sources format a length or number
into a frame). -/
def natChars (n : Nat) : List Char := natCharsGo (n + 1) n []

/-- Numeric value of a decimal digit character. -/
def digitVal (c : Char) : Nat := c.toNat - 48

/-- Recognises a decimal digit character. -/
def isDigitCh (c : Char) : Bool := '0' ≤ c && c ≤ '9'

/-- Accumulating decimal read-back of a digit sequence. -/
def charsToNatGo (acc : Nat) : List Char → Nat
  | [] => acc
  | c :: rest => charsToNatGo (acc * 10 + digitVal c) rest

/-- Embeds Rust's `str::parse::<u64>` / `parse::<usize>` on the inputs the
sources feed it: an optional leading '+', then one or more decimal digits;
anything else is a parse error (`None`). Overflow is not modelled: the
claims never exercise values near 2^64. -/
def rustParseNat (l : List Char) : Option Nat :=
  let l' := if l.head? = some '+' then l.tail else l
  if l'.isEmpty then none
  else if l'.all isDigitCh then some (charsToNatGo 0 l') else none

section SplitJoinLemmas

theorem splitCRLF_nil (acc : List Char) : splitCRLF acc [] = [acc.reverse] := rfl

theorem splitCRLF_crlf (acc rest : List Char) :
    splitCRLF acc ('\r' :: '\n' :: rest) = acc.reverse :: splitCRLF [] rest := by
  simp [splitCRLF]

theorem splitCRLF_cons (acc : List Char) (c : Char) (rest : List Char)
    (h : ¬(c = '\r' ∧ rest.head? = some '\n')) :
    splitCRLF acc (c :: rest) = splitCRLF (c :: acc) rest := by
  cases rest with
  | nil => rfl
  | cons d rest2 =>
    have hne : ¬(c = '\r' ∧ d = '\n') := by
      intro hcd; exact h ⟨hcd.1, by simp [hcd.2]⟩
    simp [splitCRLF, hne]

theorem noCRLF_cons (c : Char) (l : List Char) (h : noCRLF (c :: l) = true) :
    noCRLF l = true := by
  cases l with
  | nil => rfl
  | cons d rest =>
    simp only [noCRLF, Bool.and_eq_true] at h
    exact h.2

theorem noCRLF_head (c d : Char) (l : List Char)
    (h : noCRLF (c :: d :: l) = true) : ¬(c = '\r' ∧ d = '\n') := by
  rintro ⟨rfl, rfl⟩
  simp [noCRLF] at h

/-- Splitting a CRLF-free line followed by a CRLF separator emits the line
and continues on the remainder. -/
theorem splitCRLF_append (a : List Char) (h : noCRLF a = true) :
    ∀ (acc r : List Char),
      splitCRLF acc (a ++ '\r' :: '\n' :: r) = (acc.reverse ++ a) :: splitCRLF [] r := by
  induction a with
  | nil => intro acc r; simpa using splitCRLF_crlf acc r
  | cons c a' ih =>
    intro acc r
    have hstep : ¬(c = '\r' ∧ (a' ++ '\r' :: '\n' :: r).head? = some '\n') := by
      cases a' with
      | nil => intro hc; simp at hc
      | cons d a'' =>
        intro hc
        exact noCRLF_head c d a'' h ⟨hc.1, by simpa using hc.2⟩
    calc splitCRLF acc (c :: (a' ++ '\r' :: '\n' :: r))
        = splitCRLF (c :: acc) (a' ++ '\r' :: '\n' :: r) := splitCRLF_cons _ _ _ hstep
      _ = ((c :: acc).reverse ++ a') :: splitCRLF [] r := ih (noCRLF_cons c a' h) _ _
      _ = (acc.reverse ++ c :: a') :: splitCRLF [] r := by simp

/-- A line whose characters never include '\r' contains no CRLF pair. -/
theorem noCRLF_of_no_cr (l : List Char) (h : ∀ c ∈ l, c ≠ '\r') :
    noCRLF l = true := by
  induction l with
  | nil => rfl
  | cons c rest ih =>
    cases rest with
    | nil => rfl
    | cons d rest2 =>
      have hc : c ≠ '\r' := h c (by simp)
      have hr : noCRLF (d :: rest2) = true := by
        refine ih ?_
        intro x hx; exact h x (by simp [hx])
      simp [noCRLF, hc, hr]

/-- Splitting the CRLF-joined form of CRLF-free lines recovers the lines,
plus one final empty line produced by the trailing separator. -/
theorem splitCRLF_joinCRLF (ls : List (List Char))
    (h : ∀ l ∈ ls, noCRLF l = true) :
    splitCRLF [] (joinCRLF ls) = ls ++ [[]] := by
  induction ls with
  | nil => rfl
  | cons l ls ih =>
    have h1 : noCRLF l = true := h l (by simp)
    have h2 : ∀ x ∈ ls, noCRLF x = true := fun x hx => h x (by simp [hx])
    calc splitCRLF [] (joinCRLF (l :: ls))
        = splitCRLF [] (l ++ '\r' :: '\n' :: joinCRLF ls) := rfl
      _ = (([] : List Char).reverse ++ l) :: splitCRLF [] (joinCRLF ls) :=
          splitCRLF_append l h1 [] _
      _ = (l :: ls) ++ [[]] := by simp [ih h2]

end SplitJoinLemmas

section NumeralLemmas

theorem digitCharOf_isDigit (n : Nat) : isDigitCh (digitCharOf n) = true := by
  have h : n % 10 < 10 := Nat.mod_lt _ (by norm_num)
  unfold digitCharOf
  generalize hr : n % 10 = r at h
  interval_cases r <;> decide

theorem digitVal_digitCharOf (n : Nat) : digitVal (digitCharOf n) = n % 10 := by
  have h : n % 10 < 10 := Nat.mod_lt _ (by norm_num)
  unfold digitCharOf
  generalize hr : n % 10 = r at h ⊢
  interval_cases r <;> decide

theorem isDigitCh_ne (c : Char) (h : isDigitCh c = true) :
    c ≠ '\r' ∧ c ≠ nulChar ∧ c ≠ '+' := by
  refine ⟨?_, ?_, ?_⟩ <;> rintro rfl <;> exact absurd h (by decide)

theorem natCharsGo_acc (fuel : Nat) :
    ∀ (n : Nat) (acc : List Char), natCharsGo fuel n acc = natCharsGo fuel n [] ++ acc := by
  induction fuel with
  | zero => intro n acc; simp [natCharsGo]
  | succ fuel ih =>
    intro n acc
    by_cases hn : n < 10
    · simp [natCharsGo, hn]
    · simp only [natCharsGo, if_neg hn]
      rw [ih (n / 10) (digitCharOf n :: acc), ih (n / 10) [digitCharOf n]]
      simp

theorem natCharsGo_fuel :
    ∀ (n f₁ f₂ : Nat) (acc : List Char), n < f₁ → n < f₂ →
      natCharsGo f₁ n acc = natCharsGo f₂ n acc := by
  intro n
  induction n using Nat.strongRecOn with
  | _ n ih =>
    intro f₁ f₂ acc h₁ h₂
    cases f₁ with
    | zero => omega
    | succ g₁ =>
      cases f₂ with
      | zero => omega
      | succ g₂ =>
        by_cases hn : n < 10
        · simp [natCharsGo, hn]
        · have hd : n / 10 < n := Nat.div_lt_self (by omega) (by norm_num)
          simp only [natCharsGo, if_neg hn]
          exact ih (n / 10) hd g₁ g₂ _ (by omega) (by omega)

theorem charsToNatGo_append : ∀ (l₁ : List Char) (a : Nat) (l₂ : List Char),
    charsToNatGo a (l₁ ++ l₂) = charsToNatGo (charsToNatGo a l₁) l₂
  | [], _, _ => rfl
  | c :: rest, a, l₂ => charsToNatGo_append rest (a * 10 + digitVal c) l₂

theorem charsToNatGo_natChars (n : Nat) : charsToNatGo 0 (natChars n) = n := by
  induction n using Nat.strongRecOn with
  | _ n ih =>
    by_cases hn : n < 10
    · have hmod : n % 10 = n := Nat.mod_eq_of_lt hn
      have h1 : natChars n = [digitCharOf n] := by
        simp only [natChars, natCharsGo, if_pos hn]
      rw [h1]
      show 0 * 10 + digitVal (digitCharOf n) = n
      rw [digitVal_digitCharOf, hmod]
      omega
    · have hd : n / 10 < n := Nat.div_lt_self (by omega) (by norm_num)
      have h1 : natChars n = natChars (n / 10) ++ [digitCharOf n] := by
        show natCharsGo (n + 1) n [] = _
        have h2 : natCharsGo (n + 1) n [] = natCharsGo n (n / 10) [digitCharOf n] := by
          simp only [natCharsGo, if_neg hn]
        rw [h2, natCharsGo_acc]
        have h3 : natCharsGo n (n / 10) [] = natCharsGo (n / 10 + 1) (n / 10) [] :=
          natCharsGo_fuel (n / 10) n (n / 10 + 1) [] (by omega) (by omega)
        rw [h3]
        rfl
      rw [h1, charsToNatGo_append, ih (n / 10) hd]
      show n / 10 * 10 + digitVal (digitCharOf n) = n
      rw [digitVal_digitCharOf]
      omega

theorem natCharsGo_all_digit (fuel : Nat) :
    ∀ (n : Nat) (acc : List Char), acc.all isDigitCh = true →
      (natCharsGo fuel n acc).all isDigitCh = true := by
  induction fuel with
  | zero => intro n acc h; simpa [natCharsGo] using h
  | succ fuel ih =>
    intro n acc h
    by_cases hn : n < 10
    · simp [natCharsGo, hn, digitCharOf_isDigit, h]
    · simp only [natCharsGo, if_neg hn]
      exact ih (n / 10) _ (by simp [digitCharOf_isDigit, h])

theorem natChars_all_digit (n : Nat) : (natChars n).all isDigitCh = true :=
  natCharsGo_all_digit _ _ _ rfl

theorem natChars_ne_nil (n : Nat) : natChars n ≠ [] := by
  unfold natChars
  by_cases hn : n < 10
  · simp [natCharsGo, hn]
  · simp only [natCharsGo, if_neg hn]
    rw [natCharsGo_acc]
    simp

theorem rustParseNat_digits (l : List Char) (hne : l ≠ []) (hd : l.all isDigitCh = true) :
    rustParseNat l = some (charsToNatGo 0 l) := by
  cases l with
  | nil => exact absurd rfl hne
  | cons c rest =>
    have hc : isDigitCh c = true := by
      have := List.all_eq_true.mp hd c (by simp)
      simpa using this
    have hcp : c ≠ '+' := (isDigitCh_ne c hc).2.2
    simp [rustParseNat, hcp, hd]

/-- Reading back the decimal rendering of `n` with the modelled
`str::parse` recovers `n`. -/
theorem rustParseNat_natChars (n : Nat) : rustParseNat (natChars n) = some n := by
  rw [rustParseNat_digits _ (natChars_ne_nil n) (natChars_all_digit n),
    charsToNatGo_natChars]

end NumeralLemmas

section LineAssembly

/-- A wire line usable inside a frame: nonempty, free of CRLF pairs, free
of NUL characters. Every argument line of a frame the round-trip claims
quantify over has this shape (the parser itself only ever produces such
lines: its lines come from a CRLF split, are filtered nonempty, and NULs
are stripped before splitting). -/
def goodLine (l : List Char) : Bool :=
  !l.isEmpty && noCRLF l && l.all (fun c => c ≠ nulChar)

theorem goodLine_spec (l : List Char) (h : goodLine l = true) :
    l.isEmpty = false ∧ noCRLF l = true ∧ ∀ c ∈ l, c ≠ nulChar := by
  simp only [goodLine, Bool.and_eq_true, Bool.not_eq_true'] at h
  refine ⟨h.1.1, h.1.2, ?_⟩
  intro c hc
  have := List.all_eq_true.mp h.2 c hc
  simpa using this

theorem mem_joinCRLF (ls : List (List Char)) (c : Char) (h : c ∈ joinCRLF ls) :
    c = '\r' ∨ c = '\n' ∨ ∃ l ∈ ls, c ∈ l := by
  induction ls with
  | nil => simp [joinCRLF] at h
  | cons l ls ih =>
    simp only [joinCRLF, List.mem_append, List.mem_cons] at h
    rcases h with h | h | h | h
    · exact Or.inr (Or.inr ⟨l, by simp, h⟩)
    · exact Or.inl h
    · exact Or.inr (Or.inl h)
    · rcases ih h with h | h | ⟨x, hx, hcx⟩
      · exact Or.inl h
      · exact Or.inr (Or.inl h)
      · exact Or.inr (Or.inr ⟨x, by simp [hx], hcx⟩)

theorem sanitize_joinCRLF (ls : List (List Char))
    (h : ∀ l ∈ ls, goodLine l = true) : sanitize (joinCRLF ls) = joinCRLF ls := by
  unfold sanitize
  rw [List.filter_eq_self]
  intro c hc
  rcases mem_joinCRLF ls c hc with rfl | rfl | ⟨l, hl, hcl⟩
  · decide
  · decide
  · have := (goodLine_spec l (h l hl)).2.2 c hcl
    simpa using this

/-- The line view of a CRLF-joined frame made of good lines is exactly
those lines: NUL stripping is the identity, the split recovers each line,
and the nonempty filter drops only the final empty line produced by the
trailing CRLF. -/
theorem linesOf_joinCRLF (ls : List (List Char))
    (h : ∀ l ∈ ls, goodLine l = true) : linesOf (joinCRLF ls) = ls := by
  unfold linesOf
  rw [sanitize_joinCRLF ls h]
  rw [splitCRLF_joinCRLF ls (fun l hl => (goodLine_spec l (h l hl)).2.1)]
  rw [List.filter_append]
  have h2 : (ls.filter (fun l => !l.isEmpty)) = ls := by
    rw [List.filter_eq_self]
    intro l hl
    simp [(goodLine_spec l (h l hl)).1]
  simp [h2]

end LineAssembly

/-- Embeds the `AdminCommand` enum (the administrative sub-commands carried
by the REPLICATE / ADDSLAVE verbs). -/
inductive AdminCommand where
  | replicate (data : String)
  | addSlave (data : String)
deriving DecidableEq, Repr

/-- Embeds the `RedisCommand` enum consumed by src/parser.rs and the two
role handlers: `Set`'s third field is the absolute expiry timestamp in
milliseconds (already normalised at parse time). -/
inductive RedisCommand where
  | ping
  | pong
  | echo (s : String)
  | get (key : String)
  | set (key value : String) (expiry : Option Nat)
  | info (sec : Option String)
  | replconf (args : List String)
  | admin (cmd : AdminCommand)
deriving DecidableEq, Repr

/-- Embeds `RedisCommand::is_write_operation` (src/command.rs): only `Set`
is a write. -/
def RedisCommand.isWriteOperation : RedisCommand → Bool
  | .set _ _ _ => true
  | _ => false

/-- Character list of a string literal, for concrete wire fragments. -/
def lc (s : String) : List Char := s.data

/-- Token sequence of a command's full RESP array form. Modelled from the
spec: `to_resp2` — the re-serialisation of a `RedisCommand` into full array
form used for propagation and the replica→master handshake — is called from
src/redis/slave.rs but its definition (the current `command.rs` revision)
is not under src/; the spec (§4.1) requires the full array form `*N` with
each argument as a `$len`-prefixed bulk string, re-encoding being the exact
inverse of parsing, which fixes the token sequence below. -/
def tokensOf : RedisCommand → List (List Char)
  | .ping => [lc "PING"]
  | .pong => [lc "PONG"]
  | .echo s => [lc "ECHO", s.data]
  | .get k => [lc "GET", k.data]
  | .set k v none => [lc "SET", k.data, v.data]
  | .set k v (some e) => [lc "SET", k.data, v.data, lc "PX", natChars e]
  | .info none => [lc "INFO"]
  | .info (some s) => [lc "INFO", s.data]
  | .replconf args => lc "REPLCONF" :: args.map String.data
  | .admin (.replicate d) => [lc "REPLICATE", lc "replicate", d.data]
  | .admin (.addSlave d) => [lc "ADDSLAVE", lc "addslave", d.data]

/-- Lines of the bulk-string encodings of a token list: each token is
preceded by its `$len` header line. -/
def tokenLines : List (List Char) → List (List Char)
  | [] => []
  | t :: ts => ('$' :: natChars t.length) :: t :: tokenLines ts

/-- Lines of a command's full RESP array form: the `*N` header, then the
bulk-string lines of each token. -/
def rawLines (c : RedisCommand) : List (List Char) :=
  ('*' :: natChars (tokensOf c).length) :: tokenLines (tokensOf c)

/-- Full RESP array wire form of a command (see `tokensOf` for the
modelling note): every line, including the last, is CRLF-terminated. -/
def toResp2 (c : RedisCommand) : List Char := joinCRLF (rawLines c)

/-- Embeds `RedisCommandParser::extract_line` (src/parser.rs): takes the
next line, requires the marker character `p` at its head, and returns the
line with the marker stripped plus the remaining lines. -/
def extractLine (p : Char) : List (List Char) → Except String (List Char × List (List Char))
  | [] => .error "Invalid protocol format"
  | l :: rest =>
    match l with
    | c :: cs =>
      if c = p then .ok (cs, rest)
      else .error ("Expected line to start with ".push p)
    | [] => .error ("Expected line to start with ".push p)

/-- Embeds `lines.next().context(msg)`: takes the next line or fails with
the given context message. -/
def nextLine (msg : String) : List (List Char) → Except String (List Char × List (List Char))
  | [] => .error msg
  | l :: rest => .ok (l, rest)

/-- Embeds `RedisCommandParser::parse_array_length` (src/parser.rs):
strips the `*` marker, parses the count, and rejects counts below one. -/
def parseArrayLength (lines : List (List Char)) : Except String (Nat × List (List Char)) :=
  match extractLine '*' lines with
  | .error e => .error e
  | .ok (lenStr, rest) =>
    match rustParseNat lenStr with
    | none => .error "Invalid array length"
    | some n =>
      if n < 1 then .error "Command array must have at least one element"
      else .ok (n, rest)

/-- Embeds `RedisCommandParser::parse_argument` (src/parser.rs): skips a
`$len` header line (its content is not validated) and returns the next
line verbatim. -/
def parseArg (name : String) (lines : List (List Char)) :
    Except String (List Char × List (List Char)) :=
  match extractLine '$' lines with
  | .error e => .error e
  | .ok (_, rest) =>
    match rest with
    | [] => .error (name ++ " not found")
    | l :: r => .ok (l, r)

/-- Embeds `RedisCommandParser::parse_expiry` (src/parser.rs): skips the
`$len` header, parses the next line as `u64` milliseconds and converts it
to an absolute timestamp by adding the current time (the embedding of
`millis_to_timestamp_from_now`, src/utils.rs). -/
def parseExpiry (now : Nat) (lines : List (List Char)) :
    Except String (Nat × List (List Char)) :=
  match extractLine '$' lines with
  | .error e => .error e
  | .ok (_, rest) =>
    match rest with
    | [] => .error "Expiry value not found"
    | l :: r =>
      match rustParseNat l with
      | none => .error "Invalid expiry format"
      | some m => .ok (now + m, r)

/-- ASCII lower-casing of one character (the model of `str::to_lowercase`
on the inputs compared against the ASCII verb literals). -/
def asciiLowerChar (c : Char) : Char :=
  if 'A' ≤ c ∧ c ≤ 'Z' then Char.ofNat (c.toNat + 32) else c

/-- ASCII lower-casing of a line. -/
def asciiLower (l : List Char) : List Char := l.map asciiLowerChar

/-- Embeds `handle_echo_command` (src/parser.rs). -/
def handleEcho (lines : List (List Char)) (n : Nat) : Except String RedisCommand :=
  if n < 2 then .error "ECHO command requires an argument"
  else
    match parseArg "Argument" lines with
    | .error e => .error e
    | .ok (a, _) => .ok (.echo ⟨a⟩)

/-- Embeds `handle_get_command` (src/parser.rs). -/
def handleGet (lines : List (List Char)) (n : Nat) : Except String RedisCommand :=
  if n < 2 then .error "GET command requires one argument"
  else
    match parseArg "Key" lines with
    | .error e => .error e
    | .ok (k, _) => .ok (.get ⟨k⟩)

/-- Embeds `handle_set_command` (src/parser.rs): at least two arguments;
with five or more array elements a case-insensitive `PX` keyword selects a
relative expiry, converted to an absolute timestamp by `parseExpiry`. -/
def handleSet (now : Nat) (lines : List (List Char)) (n : Nat) : Except String RedisCommand :=
  if n < 3 then .error "SET command requires at least two arguments"
  else
    match parseArg "Key" lines with
    | .error e => .error e
    | .ok (k, r1) =>
      match parseArg "Value" r1 with
      | .error e => .error e
      | .ok (v, r2) =>
        if 5 ≤ n then
          match parseArg "PX Indicator" r2 with
          | .error e => .error e
          | .ok (px, r3) =>
            if asciiLower px = lc "px" then
              match parseExpiry now r3 with
              | .error e => .error e
              | .ok (t, _) => .ok (.set ⟨k⟩ ⟨v⟩ (some t))
            else .ok (.set ⟨k⟩ ⟨v⟩ none)
        else .ok (.set ⟨k⟩ ⟨v⟩ none)

/-- Embeds `handle_info_command` (src/parser.rs): a section argument is
read only when the array has more than one element. -/
def handleInfo (lines : List (List Char)) (n : Nat) : Except String RedisCommand :=
  if 1 < n then
    match parseArg "Section" lines with
    | .error e => .error e
    | .ok (s, _) => .ok (.info (some ⟨s⟩))
  else .ok (.info none)

/-- Embeds `handle_admin_command` (src/parser.rs): reads the sub-verb and
payload arguments; the sub-verb is matched exactly (no lower-casing). -/
def handleAdmin (lines : List (List Char)) : Except String RedisCommand :=
  match parseArg "Command Type" lines with
  | .error e => .error e
  | .ok (ct, r1) =>
    match parseArg "Data" r1 with
    | .error e => .error e
    | .ok (d, _) =>
      if ct = lc "replicate" then .ok (.admin (.replicate ⟨d⟩))
      else if ct = lc "addslave" then .ok (.admin (.addSlave ⟨d⟩))
      else .error "Unknown admin command"

/-- Embeds the argument-collecting loop of `handle_replconf_command`
(src/parser.rs): reads `count` arguments in order, short-circuiting on the
first failure. -/
def collectArgs (acc : List String) : Nat → List (List Char) → Except String (List String)
  | 0, _ => .ok acc.reverse
  | m + 1, lines =>
    match parseArg "Argument" lines with
    | .error e => .error e
    | .ok (a, r) => collectArgs (⟨a⟩ :: acc) m r

/-- Embeds `handle_replconf_command` (src/parser.rs): the remaining
`array_length - 1` tokens are captured as an ordered list. -/
def handleReplconf (lines : List (List Char)) (n : Nat) : Except String RedisCommand :=
  match collectArgs [] (n - 1) lines with
  | .error e => .error e
  | .ok args => .ok (.replconf args)

/-- Dispatch on the lower-cased verb shared by the array and bulk-string
paths of src/parser.rs. -/
def dispatchVerb (now : Nat) (v : List Char) (rest : List (List Char)) (n : Nat) :
    Except String RedisCommand :=
  if v = lc "ping" then .ok .ping
  else if v = lc "pong" then .ok .pong
  else if v = lc "echo" then handleEcho rest n
  else if v = lc "set" then handleSet now rest n
  else if v = lc "get" then handleGet rest n
  else if v = lc "info" then handleInfo rest n
  else if v = lc "replconf" then handleReplconf rest n
  else if v = lc "replicate" ∨ v = lc "addslave" then handleAdmin rest
  else .error "Unknown Redis command"

/-- Embeds `parse_array_command` (src/parser.rs): array length, then the
`$len` header of the verb (content unchecked), then the verb itself. -/
def parseArrayCommand (now : Nat) (lines : List (List Char)) : Except String RedisCommand :=
  match parseArrayLength lines with
  | .error e => .error e
  | .ok (n, r1) =>
    match extractLine '$' r1 with
    | .error e => .error e
    | .ok (_, r2) =>
      match nextLine "Command not found" r2 with
      | .error e => .error e
      | .ok (verb, r3) => dispatchVerb now (asciiLower verb) r3 n

/-- Embeds `parse_bulk_string_command` (src/parser.rs): a single `$len`
header whose length must parse, then a bare verb with assumed argument
counts. -/
def parseBulkCommand (now : Nat) (lines : List (List Char)) : Except String RedisCommand :=
  match extractLine '$' lines with
  | .error e => .error e
  | .ok (lenStr, rest) =>
    match rustParseNat lenStr with
    | none => .error "Invalid bulk string length"
    | some _ =>
      match nextLine "Command not found" rest with
      | .error e => .error e
      | .ok (verb, r) =>
        let v := asciiLower verb
        if v = lc "ping" then .ok .ping
        else if v = lc "pong" then .ok .pong
        else if v = lc "echo" then handleEcho r 2
        else if v = lc "set" then handleSet now r 3
        else if v = lc "get" then handleGet r 2
        else if v = lc "info" then handleInfo r 2
        else if v = lc "replconf" then handleReplconf r 2
        else if v = lc "replicate" ∨ v = lc "addslave" then handleAdmin r
        else .error "Unknown Redis command"

/-- Embeds the dispatch on the peeked first character in
`RedisCommandParser::parse` (src/parser.rs). -/
def parseLines (now : Nat) (lines : List (List Char)) : Except String RedisCommand :=
  match lines with
  | [] => .error "Empty buffer"
  | l :: _ =>
    match l with
    | [] => .error "Empty line"
    | c :: _ =>
      if c = '*' then parseArrayCommand now lines
      else if c = '$' then parseBulkCommand now lines
      else .error "Invalid protocol format"

/-- Embeds `RedisCommandParser::parse` (src/parser.rs): NUL stripping, CRLF
splitting and empty-line filtering, then command dispatch. `now` is the
clock value consulted when a relative `PX` expiry is normalised. -/
def parseCommand (now : Nat) (buffer : List Char) : Except String RedisCommand :=
  parseLines now (linesOf buffer)

section RoundTrip

/-- Effect of one parse pass on an already-built command: the relative→
absolute conversion in `parse_expiry` is applied again to a `Set` expiry
(every other field is returned verbatim). -/
def bumpExpiry (now : Nat) : RedisCommand → RedisCommand
  | .set k v (some e) => .set k v (some (now + e))
  | c => c

/-- The command's tokens are all usable wire lines — exactly the shape of
every command a successful parse can produce, since parsed tokens are
nonempty lines of a NUL-stripped CRLF split. -/
def wellFormedCmd (c : RedisCommand) : Prop := ∀ t ∈ tokensOf c, goodLine t = true

instance (c : RedisCommand) : Decidable (wellFormedCmd c) :=
  List.decidableBAll _ _

theorem natChars_mem_ne (n : Nat) : ∀ c ∈ natChars n, c ≠ '\r' ∧ c ≠ nulChar := by
  intro c hc
  have hd := List.all_eq_true.mp (natChars_all_digit n) c hc
  have hd' : isDigitCh c = true := by simpa using hd
  exact ⟨(isDigitCh_ne c hd').1, (isDigitCh_ne c hd').2.1⟩

theorem goodLine_of_no_cr (l : List Char) (hne : l ≠ [])
    (h : ∀ c ∈ l, c ≠ '\r' ∧ c ≠ nulChar) : goodLine l = true := by
  have h1 : l.isEmpty = false := by
    cases l with
    | nil => exact absurd rfl hne
    | cons c r => rfl
  have h2 := noCRLF_of_no_cr l (fun c hc => (h c hc).1)
  simp only [goodLine, h1, Bool.not_false, h2, Bool.true_and, Bool.and_eq_true, true_and]
  rw [List.all_eq_true]
  intro c hc
  simpa using (h c hc).2

theorem goodLine_header (c : Char) (hc : c ≠ '\r') (hn : c ≠ nulChar) (n : Nat) :
    goodLine (c :: natChars n) = true := by
  refine goodLine_of_no_cr _ (by simp) ?_
  intro x hx
  rcases List.mem_cons.mp hx with rfl | hx
  · exact ⟨hc, hn⟩
  · exact natChars_mem_ne n x hx

theorem mem_tokenLines (l : List Char) (ts : List (List Char)) (h : l ∈ tokenLines ts) :
    (∃ t ∈ ts, l = '$' :: natChars t.length) ∨ l ∈ ts := by
  induction ts with
  | nil => simp [tokenLines] at h
  | cons t ts ih =>
    simp only [tokenLines, List.mem_cons] at h
    rcases h with rfl | rfl | h
    · exact Or.inl ⟨t, by simp, rfl⟩
    · exact Or.inr (by simp)
    · rcases ih h with ⟨t', ht', rfl⟩ | h
      · exact Or.inl ⟨t', by simp [ht'], rfl⟩
      · exact Or.inr (by simp [h])

theorem rawLines_good (c : RedisCommand) (h : wellFormedCmd c) :
    ∀ l ∈ rawLines c, goodLine l = true := by
  intro l hl
  rcases List.mem_cons.mp hl with rfl | hl
  · exact goodLine_header '*' (by decide) (by decide) _
  · rcases mem_tokenLines l _ hl with ⟨t, _, rfl⟩ | hl
    · exact goodLine_header '$' (by decide) (by decide) _
    · exact h l hl

/-- The line view of a command's full array wire form is exactly its raw
lines. -/
theorem linesOf_toResp2 (c : RedisCommand) (h : wellFormedCmd c) :
    linesOf (toResp2 c) = rawLines c :=
  linesOf_joinCRLF _ (rawLines_good c h)

theorem collectArgs_tok :
    ∀ (args : List String) (acc : List String),
      collectArgs acc args.length (tokenLines (args.map String.data)) =
        .ok (acc.reverse ++ args) := by
  intro args
  induction args with
  | nil => intro acc; simp [collectArgs, tokenLines, List.map_nil]
  | cons a as ih =>
    intro acc
    show collectArgs acc (as.length + 1)
      (('$' :: natChars a.data.length) :: a.data :: tokenLines (as.map String.data)) = _
    show collectArgs (⟨a.data⟩ :: acc) as.length (tokenLines (as.map String.data)) = _
    rw [ih (⟨a.data⟩ :: acc)]
    simp

theorem parseExpiry_tok (now e : Nat) (r : List (List Char)) :
    parseExpiry now (('$' :: natChars (natChars e).length) :: natChars e :: r) =
      .ok (now + e, r) := by
  unfold parseExpiry extractLine
  simp [rustParseNat_natChars]

theorem handleSet_px (now : Nat) (k v : String) (e : Nat) :
    handleSet now (tokenLines [k.data, v.data, lc "PX", natChars e]) 5 =
      .ok (.set k v (some (now + e))) := by
  rw [show handleSet now (tokenLines [k.data, v.data, lc "PX", natChars e]) 5 =
      (match parseExpiry now (('$' :: natChars (natChars e).length) :: natChars e :: []) with
        | .error err => (.error err : Except String RedisCommand)
        | .ok (t, _) => .ok (.set k v (some t))) from rfl]
  rw [parseExpiry_tok]

end RoundTrip

section ParseRaw

theorem parseArrayLength_raw (n : Nat) (rest : List (List Char)) (hn : 1 ≤ n) :
    parseArrayLength (('*' :: natChars n) :: rest) = .ok (n, rest) := by
  unfold parseArrayLength extractLine
  simp [rustParseNat_natChars, Nat.not_lt.mpr hn]

theorem parseArrayCommand_raw (now n : Nat) (t : List Char) (ts : List (List Char))
    (hn : 1 ≤ n) :
    parseArrayCommand now (('*' :: natChars n) :: tokenLines (t :: ts)) =
      dispatchVerb now (asciiLower t) (tokenLines ts) n := by
  unfold parseArrayCommand
  rw [parseArrayLength_raw n _ hn]
  rfl

theorem parseLines_star (now n : Nat) (rest : List (List Char)) :
    parseLines now (('*' :: natChars n) :: rest) =
      parseArrayCommand now (('*' :: natChars n) :: rest) := rfl

/-- Parsing the raw line view of a re-serialised command succeeds and
returns the command, except that a `Set` expiry is bumped by the parse-time
clock (the relative→absolute conversion runs again). -/
theorem parse_rawLines (now : Nat) (c : RedisCommand) :
    parseLines now (rawLines c) = .ok (bumpExpiry now c) := by
  cases c with
  | ping => rfl
  | pong => rfl
  | echo s => rfl
  | get k => rfl
  | set k v e =>
    cases e with
    | none => rfl
    | some e =>
      show handleSet now (tokenLines [k.data, v.data, lc "PX", natChars e]) 5 = _
      rw [handleSet_px]
      rfl
  | info s =>
    cases s with
    | none => rfl
    | some s => rfl
  | replconf args =>
    have h0 : rawLines (.replconf args) =
        ('*' :: natChars (args.length + 1)) ::
          tokenLines (lc "REPLCONF" :: args.map String.data) := by
      simp [rawLines, tokensOf]
    rw [h0, parseLines_star, parseArrayCommand_raw now _ _ _ (by omega)]
    show handleReplconf (tokenLines (args.map String.data)) (args.length + 1) = _
    show (match collectArgs [] args.length (tokenLines (args.map String.data)) with
      | .error e => (.error e : Except String RedisCommand)
      | .ok as => .ok (.replconf as)) = _
    rw [collectArgs_tok args []]
    rfl
  | admin a =>
    cases a with
    | replicate d => rfl
    | addSlave d => rfl

/-- Re-serialising a command to its full RESP array wire form and parsing
the result yields the command back, except that a `Set` expiry is bumped
by the parse-time clock. -/
theorem parse_toResp2 (now : Nat) (c : RedisCommand) (h : wellFormedCmd c) :
    parseCommand now (toResp2 c) = .ok (bumpExpiry now c) := by
  unfold parseCommand toResp2
  rw [show linesOf (joinCRLF (rawLines c)) = rawLines c from linesOf_toResp2 c h]
  exact parse_rawLines now c

end ParseRaw

section Store

/-- Value and optional absolute expiry recorded for a key — the entry type
of the `BTreeMap<String, (String, Option<u64>)>` in src/redis/store.rs. -/
abbrev StoreEntry := String × Option Nat

/-- Association-list view of the key→entry map: `mapInsert` overwrites as
`BTreeMap::insert` does, `mapLookup`/`mapErase` are `get`/`remove`. -/
def mapLookup (k : String) : List (String × StoreEntry) → Option StoreEntry
  | [] => none
  | (k', e) :: rest => if k' = k then some e else mapLookup k rest

def mapErase (k : String) (m : List (String × StoreEntry)) : List (String × StoreEntry) :=
  m.filter (fun p => p.1 ≠ k)

def mapInsert (k : String) (e : StoreEntry) (m : List (String × StoreEntry)) :
    List (String × StoreEntry) :=
  (k, e) :: mapErase k m

/-- Ordered insertion into the expiry index, keyed by timestamp. The
source's `BinaryHeap<Reverse<(u64, String)>>` is modelled as a list kept
sorted by ascending timestamp: push inserts in order, peek reads the head,
pop drops the head. Pop order among equal timestamps may differ from the
heap's, but the store logic only ever tests the popped timestamp against
`now`, so the set of entries popped by a sweep agrees. -/
def heapPush (x : Nat × String) : List (Nat × String) → List (Nat × String)
  | [] => [x]
  | y :: ys => if x.1 < y.1 then x :: y :: ys else y :: heapPush x ys

/-- Embeds the `RedisStore` state (src/redis/store.rs): the key→entry map
and the expiry index. -/
structure RedisStore where
  map : List (String × StoreEntry)
  expirations : List (Nat × String)
deriving DecidableEq, Repr

/-- The store constructed by `RedisStore::new`. -/
def RedisStore.new : RedisStore := ⟨[], []⟩

/-- Embeds `RedisStore::set` (src/redis/store.rs): pushes `(expiry, key)`
onto the index when an expiry is given — without retracting any earlier
entry for the same key — then upserts the map entry. -/
def RedisStore.set (st : RedisStore) (k v : String) (expiry : Option Nat) : RedisStore :=
  { map := mapInsert k (v, expiry) st.map
    expirations :=
      match expiry with
      | some e => heapPush (e, k) st.expirations
      | none => st.expirations }

/-- Embeds `RedisStore::remove` (src/redis/store.rs): unconditional delete
from the map; the index is untouched. -/
def RedisStore.remove (st : RedisStore) (k : String) : RedisStore :=
  { st with map := mapErase k st.map }

/-- Decision taken inside the read-locked section of `RedisStore::get`
(src/redis/store.rs lines 26-34): either the result is already known, or
the entry was found expired and the read lock is dropped so that `remove`
can be called afterwards. -/
inductive GetDecision where
  | done (result : Option String)
  | removeExpired
deriving DecidableEq, Repr

/-- The read-locked section of `RedisStore::get`: look the key up and test
`now >= expiry` against the recorded expiry. -/
def RedisStore.getCheck (st : RedisStore) (now : Nat) (k : String) : GetDecision :=
  match mapLookup k st.map with
  | none => .done none
  | some (v, none) => .done (some v)
  | some (v, some e) => if e ≤ now then .removeExpired else .done (some v)

/-- Embeds `RedisStore::get` run to completion with no interference: the
read-locked check followed, when the entry was found expired, by the
write-locked `remove`; returns the result and the post state. -/
def RedisStore.get (st : RedisStore) (now : Nat) (k : String) :
    Option String × RedisStore :=
  match st.getCheck now k with
  | .done r => (r, st)
  | .removeExpired => (none, st.remove k)

/-- Embeds `RedisStore::next_expiration` (src/redis/store.rs): peek of the
earliest index entry. -/
def RedisStore.nextExpiration (st : RedisStore) : Option Nat :=
  st.expirations.head?.map Prod.fst

/-- Loop of `RedisStore::clean_expired_keys` (src/redis/store.rs lines
62-70): while the earliest index entry's timestamp is at most `now`,
remove that key from the map — unconditionally, with no re-check of the
entry currently recorded for the key — and pop the index. -/
def cleanLoop (now : Nat) : List (Nat × String) → List (String × StoreEntry) →
    List (Nat × String) × List (String × StoreEntry)
  | [], m => ([], m)
  | (t, k) :: rest, m =>
    if t ≤ now then cleanLoop now rest (mapErase k m)
    else ((t, k) :: rest, m)

/-- Embeds `RedisStore::clean_expired_keys` — the `sweep()` of the spec. -/
def RedisStore.cleanExpiredKeys (st : RedisStore) (now : Nat) : RedisStore :=
  let r := cleanLoop now st.expirations st.map
  { map := r.2, expirations := r.1 }

theorem mapLookup_insert (k : String) (e : StoreEntry) (m : List (String × StoreEntry)) :
    mapLookup k (mapInsert k e m) = some e := by
  simp [mapInsert, mapLookup]

theorem mapLookup_erase (k : String) (m : List (String × StoreEntry)) :
    mapLookup k (mapErase k m) = none := by
  induction m with
  | nil => rfl
  | cons p rest ih =>
    by_cases h : p.1 = k
    · simpa [mapErase, h] using ih
    · cases p with
      | mk k' e => simp_all [mapErase, mapLookup]

end Store

section Servers

/-- Embeds `RedisCommandResponse::new` (src/command.rs lines 206-215): an
empty textual result is encoded as `$-1\r\n`, any other as a bulk string.
The length numeral models Rust's byte length with the character count; the
two agree on every input a claim evaluates, and no claim depends on the
numeral of a non-empty reply. -/
def respNew (message : String) : String :=
  if message = "" then "$-1\r\n"
  else "$" ++ String.mk (natChars message.length) ++ "\r\n" ++ message ++ "\r\n"

/-- Embeds `RedisCommandResponse::null` (src/command.rs lines 217-221). -/
def respNull : String := "$-1\r\n"

/-- Embeds `RedisCommandResponse::_error` (src/command.rs lines 223-227). -/
def respError (message : String) : String := "-" ++ message ++ "\r\n"

/-- Embeds `RedisRole` (src/redis/types.rs). -/
inductive RedisRole where
  | master
  | slave
deriving DecidableEq, Repr

def RedisRole.asStr : RedisRole → String
  | .master => "master"
  | .slave => "slave"

/-- Embeds `RedisInfo` (src/redis/types.rs). `masterReplid` is generated
randomly at startup in the source; it is a plain field here. -/
structure RedisInfo where
  role : RedisRole
  masterHost : String
  masterPort : String
  masterReplid : String
  masterReplOffset : Nat
deriving DecidableEq, Repr

/-- The replication section body formatted by both role handlers. -/
def infoMessage (i : RedisInfo) : String :=
  "role:" ++ i.role.asStr ++ "\r\nmaster_host:" ++ i.masterHost ++
    "\r\nmaster_port:" ++ i.masterPort ++ "\r\nmaster_replid:" ++ i.masterReplid ++
    "\r\nmaster_repl_offset:" ++ String.mk (natChars i.masterReplOffset)

/-- Embeds the `Master` server state (src/redis/master.rs): base server
fields plus the replica registry. -/
structure MasterState where
  info : RedisInfo
  address : String
  store : RedisStore
  slaves : List String
deriving DecidableEq, Repr

/-- Embeds `Master::new`: empty store, no replicas. `replid` stands for
the random identifier drawn at startup. -/
def MasterState.new (host port replid : String) : MasterState :=
  { info := { role := .master, masterHost := "", masterPort := "",
              masterReplid := replid, masterReplOffset := 0 }
    address := host ++ ":" ++ port
    store := RedisStore.new
    slaves := [] }

/-- Outcome of one network send, supplied as an oracle: the argument pair
is (replica address, payload) and the result is the peer's reply or an
I/O error, standing for `BaseServer::send_command` (src/redis/base.rs). -/
abbrev SendOracle := String → String → Except String String

def exceptOk (r : Except String String) : Bool :=
  match r with
  | .ok _ => true
  | .error _ => false

/-- The REPLICATE frame built in `Master::replicate_to_slaves`
(src/redis/master.rs lines 45-49). -/
def framedReplicate (cmd : String) : String :=
  "*2\r\n$9\r\nREPLICATE\r\n$" ++ String.mk (natChars cmd.length) ++ "\r\n" ++ cmd ++ "\r\n"

/-- Embeds `Master::replicate_to_slaves` (src/redis/master.rs lines
43-63): every registered replica is sent the re-framed command in order; a
failed send is only recorded (logged in the source) and the loop continues;
the function's own result is unconditionally `Ok(())`. The first component
records, per replica in order, whether its send succeeded. -/
def replicateToSlaves (send : SendOracle) (slaves : List String) (cmd : String) :
    List (String × Bool) × Except String Unit :=
  (slaves.map (fun a => (a, exceptOk (send a (framedReplicate cmd)))), .ok ())

/-- Embeds `Master::handle_command` (src/redis/master.rs lines 90-130).
The second component records the per-replica send attempts made while
handling (non-empty only for `Admin Replicate`). The source's `match` has
no `Replconf` arm; that gap is modelled as an error result, and no claim
depends on it. -/
def masterHandle (send : SendOracle) (now : Nat) (st : MasterState) :
    RedisCommand → Except String (String × MasterState) × List (String × Bool)
  | .ping => (.ok (respNew "PONG", st), [])
  | .pong => (.ok (respNew "PING", st), [])
  | .echo s => (.ok (respNew s, st), [])
  | .get k =>
    let r := st.store.get now k
    (.ok ((match r.1 with
           | some v => respNew v
           | none => respNull), { st with store := r.2 }), [])
  | .info sec =>
    (.ok ((match sec with
           | some s =>
             if s = "replication" then infoMessage st.info |> respNew
             else respError "Unsupported INFO section"
           | none => respError "Unsupported INFO section"), st), [])
  | .set k v e => (.ok (respNew "OK", { st with store := st.store.set k v e }), [])
  | .replconf _ => (.error "non-exhaustive match: no Replconf arm in master.rs", [])
  | .admin (.replicate d) =>
    let rep := replicateToSlaves send st.slaves d
    ((match rep.2 with
      | .error e => .error e
      | .ok _ => .ok (respNew "OK", st)), rep.1)
  | .admin (.addSlave a) => (.ok (respNew "OK", { st with slaves := st.slaves ++ [a] }), [])

/-- What one iteration of the master's per-connection loop produces. -/
structure DispatchOutcome where
  reply : Option String
  state : MasterState
  connOpen : Bool
deriving DecidableEq, Repr

/-- Embeds one iteration of the connection loop in `start_master_server`
(src/server.rs lines 28-82) on a non-empty read: parse the buffer — on
failure log and `continue` with the connection open and no reply written —
otherwise replicate first when the command is a write, then execute and
write the response. Each `continue` in the source maps to an outcome with
`reply = none` and `connOpen = true`. -/
def dispatchStep (send : SendOracle) (now : Nat) (st : MasterState) (buffer : String) :
    DispatchOutcome :=
  match parseCommand now buffer.data with
  | .error _ => { reply := none, state := st, connOpen := true }
  | .ok cmd =>
    if cmd.isWriteOperation then
      match (replicateToSlaves send st.slaves buffer).2 with
      | .error _ => { reply := none, state := st, connOpen := true }
      | .ok _ =>
        match (masterHandle send now st cmd).1 with
        | .error _ => { reply := none, state := st, connOpen := true }
        | .ok (resp, st') => { reply := some resp, state := st', connOpen := true }
    else
      match (masterHandle send now st cmd).1 with
      | .error _ => { reply := none, state := st, connOpen := true }
      | .ok (resp, st') => { reply := some resp, state := st', connOpen := true }

end Servers

section SlaveServer

/-- Embeds the `Slave` server state (src/redis/slave.rs): the base server
fields (no replica registry exists on a slave). -/
structure SlaveState where
  info : RedisInfo
  address : String
  store : RedisStore
deriving DecidableEq, Repr

/-- Embeds `Slave::new` (src/redis/slave.rs lines 27-36): the slave's own
address is `host:port`; `info.master_host`/`info.master_port` hold the
upstream address. `replid` stands for the random identifier. -/
def SlaveState.new (host port masterHost masterPort replid : String) : SlaveState :=
  { info := { role := .slave, masterHost := masterHost, masterPort := masterPort,
              masterReplid := replid, masterReplOffset := 0 }
    address := host ++ ":" ++ port
    store := RedisStore.new }

/-- Model of `str::starts_with` on the reply strings the slave checks. -/
def respStartsWith (s pat : String) : Bool := pat.data.isPrefixOf s.data

/-- Embeds `Slave::send_command_to_master` (src/redis/slave.rs lines
39-62) given the master's reply `resp`: the reply is returned when it
starts with `+`, otherwise the call fails. -/
def sendCmdToMaster (resp : String) : Except String String :=
  if respStartsWith resp "+" then .ok resp else .error "Failed to send command to master"

/-- Embeds `Slave::replconf` (src/redis/slave.rs lines 98-122) given the
master's two replies as oracles `r1`, `r2`. Returns the REPLCONF commands
sent, in order, and the result. Note the port placed in `listening-port`
is parsed from `self.base.info.master_port` — the configured upstream
master's port — exactly as in the source. `u16` parsing is modelled by
`rustParseNat` plus the 2^16 bound. -/
def slaveReplconf (masterPort : String) (r1 r2 : String) :
    List RedisCommand × Except String String :=
  match rustParseNat masterPort.data with
  | none => ([], .error "Invalid port number")
  | some port =>
    if port < 65536 then
      let cmd1 : RedisCommand := .replconf ["listening-port", String.mk (natChars port)]
      match sendCmdToMaster r1 with
      | .error e => ([cmd1], .error e)
      | .ok resp1 =>
        if respStartsWith resp1 "+OK" then
          let cmd2 : RedisCommand := .replconf ["capa", "psync2"]
          match sendCmdToMaster r2 with
          | .error e => ([cmd1, cmd2], .error e)
          | .ok resp2 =>
            if respStartsWith resp2 "+OK" then
              ([cmd1, cmd2], .ok "REPLCONF commands sent successfully")
            else ([cmd1, cmd2], .error "Failed to send REPLCONF capa psync2")
        else ([cmd1], .error "Failed to send REPLCONF listening-port")
    else ([], .error "Invalid port number")

/-- Embeds `Slave::handle_command` (src/redis/slave.rs lines 129-182). The
`Pong` arm runs the REPLCONF handshake, whose master replies are the
oracles `r1`, `r2`; its `?` propagates a handshake failure. -/
def slaveHandle (r1 r2 : String) (now : Nat) (st : SlaveState) :
    RedisCommand → Except String (String × SlaveState)
  | .ping => .ok (respNew "PONG", st)
  | .pong =>
    match (slaveReplconf st.info.masterPort r1 r2).2 with
    | .error e => .error e
    | .ok msg => .ok (respNew msg, st)
  | .echo s => .ok (respNew s, st)
  | .get k =>
    let r := st.store.get now k
    .ok ((match r.1 with
          | some v => respNew v
          | none => respNull), { st with store := r.2 })
  | .info sec =>
    .ok ((match sec with
          | some s =>
            if s = "replication" then infoMessage st.info |> respNew
            else respError "Unsupported INFO section"
          | none => respError "Unsupported INFO section"), st)
  | .set k v e => .ok (respNew "OK", { st with store := st.store.set k v e })
  | .admin (.replicate _) =>
    .ok (respError "Replication command not supported on slave", st)
  | .admin (.addSlave _) =>
    .ok (respError "AddSlave command not supported on slave", st)
  | .replconf _ =>
    .ok (respError "REPLCONF command not supported on slave", st)

end SlaveServer

section Claims

theorem countP_mapErase (k : String) (m : List (String × StoreEntry)) :
    (mapErase k m).countP (fun p => p.1 = k) = 0 := by
  rw [List.countP_eq_zero]
  intro p hp
  have := List.of_mem_filter hp
  simpa using this

/-- C9: for all keys k and values v, `set(k, v)` with no expiry followed by
`get(k)` with no intervening operation returns v (and leaves the store
unchanged); the map keeps a single record per key, and a second `set` on
the same key overwrites the first (last-write-wins). -/
theorem setNoExpiryThenGet (st : RedisStore) (k v : String) (now : Nat) :
    (st.set k v none).get now k = (some v, st.set k v none) ∧
    (∀ (v1 : String) (e1 : Option Nat) (v2 : String) (e2 : Option Nat),
      mapLookup k ((st.set k v1 e1).set k v2 e2).map = some (v2, e2) ∧
      ((st.set k v1 e1).set k v2 e2).map.countP (fun p => p.1 = k) = 1) := by
  constructor
  · unfold RedisStore.get RedisStore.getCheck RedisStore.set
    simp [mapLookup_insert]
  · intro v1 e1 v2 e2
    constructor
    · unfold RedisStore.set
      simp [mapLookup_insert]
    · unfold RedisStore.set
      simp only [mapInsert, List.countP_cons]
      rw [countP_mapErase]
      simp

/-- C10: a successful textual result that is the empty string (an `ECHO`
of an empty argument, a `GET` of a key holding the empty value) is encoded
as `$-1\r\n` — byte-identical to the absent/null encoding and distinct
from the empty bulk string `$0\r\n\r\n` — so a present empty value is
indistinguishable on the wire from an absent key. -/
theorem emptyResultEncodedAsNull :
    respNew "" = "$-1\r\n" ∧ respNew "" = respNull ∧ respNew "" ≠ "$0\r\n\r\n" ∧
    (∀ (send : SendOracle) (now : Nat) (st : MasterState),
      (masterHandle send now st (.echo "")).1 = .ok ("$-1\r\n", st)) ∧
    (∀ (send : SendOracle) (now : Nat) (st : MasterState) (k : String),
      mapLookup k st.store.map = some ("", none) →
        (masterHandle send now st (.get k)).1 = .ok ("$-1\r\n", st)) := by
  refine ⟨rfl, rfl, by decide, fun send now st => rfl, ?_⟩
  intro send now st k h
  show (.ok ((match (st.store.get now k).1 with
        | some v => respNew v
        | none => respNull), { st with store := (st.store.get now k).2 }) :
      Except String (String × MasterState)) = _
  unfold RedisStore.get RedisStore.getCheck
  rw [h]
  rfl

/-- C10 witness: the generic theorem applied at a concrete master whose
store holds the empty value for "k". -/
theorem emptyResultEncodedAsNull_witness :
    (masterHandle (fun _ _ => .ok "") 0
        { MasterState.new "h" "p" "r" with store := RedisStore.new.set "k" "" none }
        (.get "k")).1 =
      .ok ("$-1\r\n",
        { MasterState.new "h" "p" "r" with store := RedisStore.new.set "k" "" none }) :=
  (emptyResultEncodedAsNull).2.2.2.2 (fun _ _ => .ok "") 0
    { MasterState.new "h" "p" "r" with store := RedisStore.new.set "k" "" none }
    "k" (by decide)

/-- C8: a replica answers `AdminReplicate`, `AdminAddSlave` and `REPLCONF`
from a client connection with an explicit RESP error reply (`-message\r\n`)
and leaves its state — in particular its store — untouched; a replica has
no replica registry at all. -/
theorem slaveRejectsAdminAndReplconf (r1 r2 : String) (now : Nat) (st : SlaveState)
    (d a : String) (args : List String) :
    slaveHandle r1 r2 now st (.admin (.replicate d)) =
      .ok (respError "Replication command not supported on slave", st) ∧
    slaveHandle r1 r2 now st (.admin (.addSlave a)) =
      .ok (respError "AddSlave command not supported on slave", st) ∧
    slaveHandle r1 r2 now st (.replconf args) =
      .ok (respError "REPLCONF command not supported on slave", st) ∧
    (∀ m, respError m = "-" ++ m ++ "\r\n") :=
  ⟨rfl, rfl, rfl, fun _ => rfl⟩

/-- C1: evaluation of `clean_expired_keys` at the failing input. After
`set k v1 (expiry 5)` then `set k v2 (expiry 100)`, the key's currently
recorded expiry is 100, yet a sweep at `now = 10` pops the stale index
entry `(5, k)` and deletes `k` unconditionally — the loop in
src/redis/store.rs lines 62-70 never re-checks the store's current entry —
so the key is gone while its recorded expiry lies in the future. -/
theorem sweepDeletesKeyWithFutureExpiry :
    mapLookup "k" ((RedisStore.new.set "k" "v1" (some 5)).set "k" "v2" (some 100)).map
      = some ("v2", some 100) ∧
    (10 : Nat) < 100 ∧
    mapLookup "k"
      ((((RedisStore.new.set "k" "v1" (some 5)).set "k" "v2" (some 100)).cleanExpiredKeys
        10).map) = none := by
  decide

/-- C5: the get-then-conditionally-delete sequence in `RedisStore::get` is
not atomic: the read lock is dropped (src/redis/store.rs line 30) before
`remove` re-acquires a write lock, so a full `set` can interleave. The
three steps below are exactly the read-locked check (which at `now = 10`
finds the old entry expired), the interleaved `set` of a fresh value with
expiry 100, and the unconditional `remove` then issued by `get`: the
fresh, non-expired value is deleted. -/
theorem getRaceDeletesFreshWrite :
    (RedisStore.new.set "k" "old" (some 5)).getCheck 10 "k" = .removeExpired ∧
    mapLookup "k" ((RedisStore.new.set "k" "old" (some 5)).set "k" "fresh" (some 100)).map
      = some ("fresh", some 100) ∧
    (10 : Nat) < 100 ∧
    mapLookup "k"
      ((((RedisStore.new.set "k" "old" (some 5)).set "k" "fresh" (some 100)).remove
        "k").map) = none := by
  decide

/-- C2: `set(k, v, px=Δ)` records the absolute expiry computed at parse
time — parsing the SET array frame at clock `t` yields expiry `t + Δ` — a
`get` strictly before the absolute expiry returns v and leaves the store
unchanged, and a `get` at or after it deletes the entry from the store map
and returns absent (read-triggered eager cleanup). -/
theorem setPxThenGetRespectsExpiry (k v : String) (d t : Nat) (st : RedisStore)
    (e now : Nat) (hwf : wellFormedCmd (.set k v (some d))) :
    parseCommand t (toResp2 (.set k v (some d))) = .ok (.set k v (some (t + d))) ∧
    (now < e → (st.set k v (some e)).get now k = (some v, st.set k v (some e))) ∧
    (e ≤ now →
      ((st.set k v (some e)).get now k).1 = none ∧
      mapLookup k ((st.set k v (some e)).get now k).2.map = none) := by
  refine ⟨?_, ?_, ?_⟩
  · rw [parse_toResp2 t _ hwf]
    rfl
  · intro h
    unfold RedisStore.get RedisStore.getCheck RedisStore.set
    simp [mapLookup_insert, Nat.not_le.mpr h]
  · intro h
    unfold RedisStore.get RedisStore.getCheck RedisStore.set RedisStore.remove
    simp [mapLookup_insert, h, mapLookup_erase]

/-- C2 witness: the theorem applied at k="foo", v="bar", Δ=5, parse clock
2 (absolute expiry 7), with reads at clocks 3 and 10. -/
theorem setPxThenGetRespectsExpiry_witness :
    parseCommand 2 (toResp2 (.set "foo" "bar" (some 5))) =
      .ok (.set "foo" "bar" (some 7)) ∧
    (RedisStore.new.set "foo" "bar" (some 7)).get 3 "foo"
      = (some "bar", RedisStore.new.set "foo" "bar" (some 7)) ∧
    ((RedisStore.new.set "foo" "bar" (some 7)).get 10 "foo").1 = none ∧
    mapLookup "foo" ((RedisStore.new.set "foo" "bar" (some 7)).get 10 "foo").2.map
      = none := by
  obtain ⟨h1, h2, -⟩ :=
    setPxThenGetRespectsExpiry "foo" "bar" 5 2 RedisStore.new 7 3 (by decide)
  obtain ⟨h4, h5⟩ :=
    (setPxThenGetRespectsExpiry "foo" "bar" 5 2 RedisStore.new 7 10 (by decide)).2.2
      (by decide)
  exact ⟨h1, h2 (by decide), h4, h5⟩

/-- C3 counterexample: re-serialising `Set "k" "v" (expiry 5)` and parsing
the result at clock 100 yields expiry 105, not 5 — `parse_expiry` applies
the relative→absolute conversion again to the already absolute value, so
the round-trip is not the identity on the expiry field. -/
theorem roundTripNotIdentityOnExpiry :
    parseCommand 100 (toResp2 (.set "k" "v" (some 5))) =
      .ok (.set "k" "v" (some 105)) ∧
    RedisCommand.set "k" "v" (some 105) ≠ .set "k" "v" (some 5) := by
  constructor
  · rw [parse_toResp2 100 _ (by decide)]
    rfl
  · decide

/-- C3 (amended): re-serialising any well-formed parsed command to full
RESP array wire form and re-parsing yields an equal command for every
field except the expiry: a `Set` expiry comes back increased by the
parse-time clock, since the relative→absolute conversion runs on every
parse. The round-trip is therefore the exact identity precisely for
commands without an expiry field. -/
theorem roundTripBumpsExpiryOnly (t : Nat) (c : RedisCommand) (h : wellFormedCmd c) :
    parseCommand t (toResp2 c) = .ok (bumpExpiry t c) ∧
    ((∀ k v e, c ≠ .set k v (some e)) → bumpExpiry t c = c) ∧
    (∀ k v e, bumpExpiry t (.set k v (some e)) = .set k v (some (t + e))) := by
  refine ⟨parse_toResp2 t c h, ?_, fun k v e => rfl⟩
  intro hne
  cases c
  case set k v e =>
    cases e with
    | none => rfl
    | some e => exact absurd rfl (hne k v e)
  all_goals rfl

/-- C3 witness: the amended theorem applied to `Echo "hi"` at clock 3. -/
theorem roundTripBumpsExpiryOnly_witness :
    parseCommand 3 (toResp2 (.echo "hi")) = .ok (.echo "hi") ∧
    bumpExpiry 3 (.echo "hi") = .echo "hi" := by
  obtain ⟨h1, h2, -⟩ := roundTripBumpsExpiryOnly 3 (.echo "hi") (by decide)
  exact ⟨h1, h2 (fun k v e hh => RedisCommand.noConfusion hh)⟩

/-- C4 counterexample: on the malformed frame `*1\r\nPING\r\n` (missing
`$` header) the parse fails, and the dispatcher writes no reply at all —
in particular not the claimed `-message\r\n` error reply — it only logs
and continues with the connection open (src/server.rs lines 45-51). -/
theorem parseFailureSendsNoErrorReply :
    parseCommand 0 (lc "*1\r\nPING\r\n") =
      .error ("Expected line to start with ".push '$') ∧
    dispatchStep (fun _ _ => .ok "+OK") 0 (MasterState.new "h" "p" "r") "*1\r\nPING\r\n" =
      { reply := none, state := MasterState.new "h" "p" "r", connOpen := true } :=
  ⟨rfl, rfl⟩

/-- C4 (amended): a malformed request (bad array length, missing `$`
header, wrong arity, unknown verb) yields a descriptive parse error, the
connection is not closed and only that request is dropped — but no RESP
error reply is written to the client; the error is only logged. -/
theorem parseFailureDropsRequestOnly (send : SendOracle) (now : Nat) (st : MasterState)
    (buffer : String) (e : String)
    (h : parseCommand now buffer.data = .error e) :
    dispatchStep send now st buffer = { reply := none, state := st, connOpen := true } ∧
    parseCommand 0 (lc "*abc\r\nx\r\n") = .error "Invalid array length" ∧
    parseCommand 0 (lc "*0\r\n$4\r\nPING\r\n") =
      .error "Command array must have at least one element" ∧
    parseCommand 0 (lc "*1\r\nPING\r\n") =
      .error ("Expected line to start with ".push '$') ∧
    parseCommand 0 (lc "*1\r\n$4\r\nECHO\r\n") =
      .error "ECHO command requires an argument" ∧
    parseCommand 0 (lc "*1\r\n$3\r\nFOO\r\n") = .error "Unknown Redis command" := by
  refine ⟨?_, rfl, rfl, rfl, rfl, rfl⟩
  unfold dispatchStep
  rw [h]

/-- C4 witness: the amended theorem applied to the buffer "garbage". -/
theorem parseFailureDropsRequestOnly_witness :
    dispatchStep (fun _ _ => .ok "+OK") 0 (MasterState.new "h" "p" "r") "garbage" =
      { reply := none, state := MasterState.new "h" "p" "r", connOpen := true } :=
  (parseFailureDropsRequestOnly (fun _ _ => .ok "+OK") 0 (MasterState.new "h" "p" "r")
    "garbage" "Invalid protocol format" rfl).1

theorem respStartsWith_plus (s : String) (h : respStartsWith s "+OK" = true) :
    respStartsWith s "+" = true := by
  unfold respStartsWith at h ⊢
  have hOK : "+OK".data = '+' :: 'O' :: 'K' :: [] := rfl
  have hP : "+".data = ['+'] := rfl
  rw [hOK] at h
  rw [hP]
  cases hd : s.data with
  | nil => rw [hd] at h; exact absurd h (by decide)
  | cons c rest =>
    rw [hd] at h
    simp only [List.isPrefixOf, Bool.and_eq_true] at h ⊢
    exact ⟨h.1, trivial⟩

theorem slaveReplconf_okCase (mp : String) (port : Nat) (r1 r2 : String)
    (hp : rustParseNat mp.data = some port) (hlt : port < 65536)
    (h1 : respStartsWith r1 "+OK" = true) (h2 : respStartsWith r2 "+OK" = true) :
    slaveReplconf mp r1 r2 =
      ([.replconf ["listening-port", String.mk (natChars port)],
        .replconf ["capa", "psync2"]], .ok "REPLCONF commands sent successfully") := by
  have h1' := respStartsWith_plus r1 h1
  have h2' := respStartsWith_plus r2 h2
  unfold slaveReplconf
  rw [hp]
  simp [sendCmdToMaster, h1', h2', h1, h2, hlt]

theorem slaveReplconf_secondFail (mp : String) (port : Nat) (r1 r2 : String)
    (hp : rustParseNat mp.data = some port) (hlt : port < 65536)
    (h1 : respStartsWith r1 "+OK" = true) (h2 : respStartsWith r2 "+OK" = false) :
    ∃ err, slaveReplconf mp r1 r2 =
      ([.replconf ["listening-port", String.mk (natChars port)],
        .replconf ["capa", "psync2"]], .error err) := by
  have h1' := respStartsWith_plus r1 h1
  unfold slaveReplconf
  rw [hp]
  by_cases h2' : respStartsWith r2 "+" = true
  · exact ⟨"Failed to send REPLCONF capa psync2",
      by simp [sendCmdToMaster, h1', h2', h1, h2, hlt]⟩
  · exact ⟨"Failed to send command to master",
      by simp [sendCmdToMaster, h1', h2', h1, hlt]⟩

theorem slaveReplconf_firstFail (mp : String) (port : Nat) (r1 r2 : String)
    (hp : rustParseNat mp.data = some port) (hlt : port < 65536)
    (h1 : respStartsWith r1 "+OK" = false) :
    ∃ err, slaveReplconf mp r1 r2 =
      ([.replconf ["listening-port", String.mk (natChars port)]], .error err) := by
  unfold slaveReplconf
  rw [hp]
  by_cases h1' : respStartsWith r1 "+" = true
  · exact ⟨"Failed to send REPLCONF listening-port",
      by simp [sendCmdToMaster, h1', h1, hlt]⟩
  · exact ⟨"Failed to send command to master", by simp [sendCmdToMaster, h1', hlt]⟩

/-- C7 (amended): in `Slave::replconf` the first command sent is
`REPLCONF listening-port <port>` where `<port>` is parsed from the
configured upstream master's port (`info.master_port`) — not the replica's
own listening port — followed, in order, by `REPLCONF capa psync2`; the
second REPLCONF is sent iff the first reply is an affirmative `+OK`, and a
non-affirmative or failed reply to either aborts the handshake attempt
with an error. -/
theorem replconfHandshakeOrderAndGating (mp : String) (port : Nat) (r1 r2 : String)
    (hp : rustParseNat mp.data = some port) (hlt : port < 65536) :
    (slaveReplconf mp r1 r2).1.head? =
      some (.replconf ["listening-port", String.mk (natChars port)]) ∧
    ((.replconf ["capa", "psync2"] : RedisCommand) ∈ (slaveReplconf mp r1 r2).1 ↔
      respStartsWith r1 "+OK" = true) ∧
    ((slaveReplconf mp r1 r2).1 =
        [.replconf ["listening-port", String.mk (natChars port)]] ∨
      (slaveReplconf mp r1 r2).1 =
        [.replconf ["listening-port", String.mk (natChars port)],
         .replconf ["capa", "psync2"]]) ∧
    (respStartsWith r1 "+OK" = false → ∃ err, (slaveReplconf mp r1 r2).2 = .error err) ∧
    (respStartsWith r2 "+OK" = false → ∃ err, (slaveReplconf mp r1 r2).2 = .error err) ∧
    ((slaveReplconf mp r1 r2).2 = .ok "REPLCONF commands sent successfully" ↔
      respStartsWith r1 "+OK" = true ∧ respStartsWith r2 "+OK" = true) := by
  have hcne : (RedisCommand.replconf ["capa", "psync2"]) ≠
      .replconf ["listening-port", String.mk (natChars port)] := by
    intro hh
    have : ("capa" : String) = "listening-port" := by
      have := RedisCommand.replconf.inj hh
      exact (List.cons.inj this).1
    exact absurd this (by decide)
  by_cases h1 : respStartsWith r1 "+OK" = true
  · by_cases h2 : respStartsWith r2 "+OK" = true
    · rw [slaveReplconf_okCase mp port r1 r2 hp hlt h1 h2]
      refine ⟨rfl, by simp [h1], Or.inr rfl, by simp [h1], by simp [h2], by simp [h1, h2]⟩
    · obtain ⟨err, hB⟩ := slaveReplconf_secondFail mp port r1 r2 hp hlt h1
        (by simpa using h2)
      rw [hB]
      refine ⟨rfl, by simp [h1], Or.inr rfl, by simp [h1], fun _ => ⟨err, rfl⟩, by simp [h2]⟩
  · obtain ⟨err, hC⟩ := slaveReplconf_firstFail mp port r1 r2 hp hlt (by simpa using h1)
    rw [hC]
    refine ⟨rfl, by simp [h1, hcne], Or.inl rfl, fun _ => ⟨err, rfl⟩, ?_, by simp [h1]⟩
    intro h2
    exact ⟨err, rfl⟩

/-- C7 counterexample: a slave constructed with its own port 1234 and
upstream master port 6379 (`Slave::new "127.0.0.1" "1234" "localhost"
"6379"`) runs `replconf` with `info.master_port = "6379"`, so the first
handshake command carries the master's port 6379, not the replica's own
listening port 1234. -/
theorem replconfCarriesMasterPort :
    (SlaveState.new "127.0.0.1" "1234" "localhost" "6379" "id").info.masterPort
      = "6379" ∧
    (SlaveState.new "127.0.0.1" "1234" "localhost" "6379" "id").address
      = "127.0.0.1:1234" ∧
    (slaveReplconf "6379" "+OK" "+OK").1.head? =
      some (.replconf ["listening-port", "6379"]) ∧
    ("6379" : String) ≠ "1234" := by
  refine ⟨rfl, by decide, by decide, by decide⟩

/-- C7 witness: the amended theorem applied at master port "6379" with two
affirmative replies. -/
theorem replconfHandshakeOrderAndGating_witness :
    (slaveReplconf "6379" "+OK" "+OK").1.head? =
      some (.replconf ["listening-port", String.mk (natChars 6379)]) ∧
    ((.replconf ["capa", "psync2"] : RedisCommand) ∈ (slaveReplconf "6379" "+OK" "+OK").1 ↔
      respStartsWith "+OK" "+OK" = true) := by
  obtain ⟨hh, hm, -⟩ :=
    replconfHandshakeOrderAndGating "6379" 6379 "+OK" "+OK" (by decide) (by decide)
  exact ⟨hh, hm⟩

/-- C6: write propagation is per-replica independent and best-effort: for
every send oracle — failures included — `replicate_to_slaves` attempts
every registered replica in registry order and itself returns success
unconditionally, so no propagation failure reaches the originating
request; and the dispatcher answers the originating client of any parsed
write command with a reply regardless of send outcomes. -/
theorem propagationBestEffort (send : SendOracle) (slaves : List String) (cmd : String)
    (now : Nat) (st : MasterState) (buffer : String) (c : RedisCommand)
    (hp : parseCommand now buffer.data = .ok c) (hw : c.isWriteOperation = true) :
    ((replicateToSlaves send slaves cmd).1.map Prod.fst = slaves) ∧
    ((replicateToSlaves send slaves cmd).2 = .ok ()) ∧
    (∃ resp st', dispatchStep send now st buffer =
        { reply := some resp, state := st', connOpen := true }) := by
  refine ⟨?_, rfl, ?_⟩
  · simp only [replicateToSlaves, List.map_map]
    rw [show (Prod.fst ∘ fun a => (a, exceptOk (send a (framedReplicate cmd)))) = id from rfl,
      List.map_id]
  · cases c
    case set k v e =>
      refine ⟨respNew "OK", { st with store := st.store.set k v e }, ?_⟩
      unfold dispatchStep
      rw [hp]
      rfl
    all_goals simp [RedisCommand.isWriteOperation] at hw

/-- C6 witness: the theorem applied with an always-failing send oracle,
two registered replicas and a concrete SET frame. -/
theorem propagationBestEffort_witness :
    ∃ resp st', dispatchStep (fun _ _ => .error "io down") 7
        { MasterState.new "h" "p" "r" with slaves := ["a", "b"] }
        "*3\r\n$3\r\nSET\r\n$3\r\nfoo\r\n$3\r\nbar\r\n" =
      { reply := some resp, state := st', connOpen := true } :=
  (propagationBestEffort (fun _ _ => .error "io down") ["a", "b"] "x" 7
    { MasterState.new "h" "p" "r" with slaves := ["a", "b"] }
    "*3\r\n$3\r\nSET\r\n$3\r\nfoo\r\n$3\r\nbar\r\n" (.set "foo" "bar" none) rfl rfl).2.2

end Claims
